import Mathlib

/-!
Shallow embedding of the elevator dispatch and movement scheduler from
`Elevator System/elevator-system.py`: the motion state machine
(IdleState / MovingUpState / MovingDownState), the per-car request routing
(`add_request`), the movement step (`move`), the nearest-elevator selection
strategy, the facade entry points of `ElevatorSystem`, and the observer
notification loop.  Floors are integers, the pending-stop containers
(`up_requests` / `down_requests`, Python sets) are finite sets of integers,
and console prints / observer notifications are recorded as an event list.
-/

namespace ElevatorLLD

/-- `Direction` enum: UP, DOWN, IDLE. -/
inductive Direction where
  | up
  | down
  | idle
deriving DecidableEq, Repr

/-- `RequestSource` enum: INTERNAL (cabin call), EXTERNAL (hall call). -/
inductive RequestSource where
  | internal
  | external
deriving DecidableEq, Repr

/-- The `Request` dataclass: target floor, travel direction, origin. -/
structure Request where
  target_floor : Int
  direction : Direction
  source : RequestSource
deriving DecidableEq, Repr

/-- The three concrete `ElevatorState` classes. -/
inductive ElevatorState where
  | idle
  | movingUp
  | movingDown
deriving DecidableEq, Repr

/-- Observable events: `notify` is one `notify_observers()` round
(fired by `set_state` and `set_current_floor`), `stopped f` is the
console print in `move` when the car reaches a pending stop, and
`processed` is the console print at the top of `Elevator.add_request`. -/
inductive Ev where
  | notify
  | stopped (floor : Int)
  | processed
deriving DecidableEq, Repr

/-- The mutable fields of the `Elevator` class (locks and the observer
list are modelled outside the state; the running flag is irrelevant to
the per-tick logic). -/
structure Elevator where
  id : Nat
  current_floor : Int
  state : ElevatorState
  up_requests : Finset Int
  down_requests : Finset Int
deriving DecidableEq

/-- `Elevator.get_direction`, delegating to the current state object. -/
def Elevator.get_direction (e : Elevator) : Direction :=
  match e.state with
  | .idle => .idle
  | .movingUp => .up
  | .movingDown => .down

/-- `Elevator.move`, dispatching on the current state object
(`IdleState.move` / `MovingUpState.move` / `MovingDownState.move`),
returning the updated elevator and the events fired during the tick. -/
def move (e : Elevator) : Elevator × List Ev :=
  match e.state with
  | .idle =>
    if e.up_requests ≠ ∅ then
      ({e with state := ElevatorState.movingUp}, [Ev.notify])
    else if e.down_requests ≠ ∅ then
      ({e with state := ElevatorState.movingDown}, [Ev.notify])
    else (e, [])
  | .movingUp =>
    if h : e.up_requests.Nonempty then
      if e.current_floor + 1 = e.up_requests.min' h then
        if e.up_requests.erase (e.up_requests.min' h) = ∅ then
          ({e with current_floor := e.current_floor + 1,
                   up_requests := e.up_requests.erase (e.up_requests.min' h),
                   state := ElevatorState.idle},
           [Ev.notify, Ev.stopped (e.up_requests.min' h), Ev.notify])
        else
          ({e with current_floor := e.current_floor + 1,
                   up_requests := e.up_requests.erase (e.up_requests.min' h)},
           [Ev.notify, Ev.stopped (e.up_requests.min' h)])
      else
        ({e with current_floor := e.current_floor + 1}, [Ev.notify])
    else ({e with state := ElevatorState.idle}, [Ev.notify])
  | .movingDown =>
    if h : e.down_requests.Nonempty then
      if e.current_floor - 1 = e.down_requests.max' h then
        if e.down_requests.erase (e.down_requests.max' h) = ∅ then
          ({e with current_floor := e.current_floor - 1,
                   down_requests := e.down_requests.erase (e.down_requests.max' h),
                   state := ElevatorState.idle},
           [Ev.notify, Ev.stopped (e.down_requests.max' h), Ev.notify])
        else
          ({e with current_floor := e.current_floor - 1,
                   down_requests := e.down_requests.erase (e.down_requests.max' h)},
           [Ev.notify, Ev.stopped (e.down_requests.max' h)])
      else
        ({e with current_floor := e.current_floor - 1}, [Ev.notify])
    else ({e with state := ElevatorState.idle}, [Ev.notify])

/-- `Elevator.add_request`: print the processing line, then dispatch to
the current state object's `add_request`. -/
def add_request (e : Elevator) (r : Request) : Elevator × List Ev :=
  match e.state with
  | .idle =>
    if r.target_floor > e.current_floor then
      ({e with up_requests := insert r.target_floor e.up_requests}, [Ev.processed])
    else if r.target_floor < e.current_floor then
      ({e with down_requests := insert r.target_floor e.down_requests}, [Ev.processed])
    else (e, [Ev.processed])
  | .movingUp =>
    if r.source = RequestSource.internal then
      if r.target_floor > e.current_floor then
        ({e with up_requests := insert r.target_floor e.up_requests}, [Ev.processed])
      else
        ({e with down_requests := insert r.target_floor e.down_requests}, [Ev.processed])
    else if r.direction = Direction.up ∧ r.target_floor ≥ e.current_floor then
      ({e with up_requests := insert r.target_floor e.up_requests}, [Ev.processed])
    else if r.direction = Direction.down then
      ({e with down_requests := insert r.target_floor e.down_requests}, [Ev.processed])
    else (e, [Ev.processed])
  | .movingDown =>
    if r.source = RequestSource.internal then
      if r.target_floor > e.current_floor then
        ({e with up_requests := insert r.target_floor e.up_requests}, [Ev.processed])
      else
        ({e with down_requests := insert r.target_floor e.down_requests}, [Ev.processed])
    else if r.direction = Direction.down ∧ r.target_floor ≤ e.current_floor then
      ({e with down_requests := insert r.target_floor e.down_requests}, [Ev.processed])
    else if r.direction = Direction.up then
      ({e with up_requests := insert r.target_floor e.up_requests}, [Ev.processed])
    else (e, [Ev.processed])

/-- `NearestElevatorStartegy._is_suitable`. -/
def is_suitable (e : Elevator) (r : Request) : Bool :=
  if e.get_direction = Direction.idle then true
  else if e.get_direction = r.direction then
    if r.direction = Direction.up ∧ e.current_floor ≤ r.target_floor then true
    else if r.direction = Direction.down ∧ e.current_floor ≥ r.target_floor then true
    else false
  else false

/-- `abs(elevator.get_current_floor() - request.target_floor)`. -/
def distanceTo (e : Elevator) (r : Request) : Nat :=
  (e.current_floor - r.target_floor).natAbs

/-- One iteration of the selection loop in
`NearestElevatorStartegy.select_elevator`: the accumulator carries
`(best_elevator, min_distance)`; `none` is the initial
`best_elevator = None, min_distance = inf` pair. -/
def selStep (r : Request) (acc : Option (Elevator × Nat)) (e : Elevator) :
    Option (Elevator × Nat) :=
  if is_suitable e r then
    match acc with
    | none => some (e, distanceTo e r)
    | some (best, min_distance) =>
      if distanceTo e r < min_distance then some (e, distanceTo e r)
      else some (best, min_distance)
  else acc

/-- `NearestElevatorStartegy.select_elevator`. -/
def select_elevator (elevators : List Elevator) (r : Request) : Option Elevator :=
  (elevators.foldl (selStep r) none).map Prod.fst

/-- `ElevatorSystem.request_elevator` (EXTERNAL / hall call): run the
selection strategy; on success deliver the request to the chosen car
and report its id, otherwise print "System busy" (modelled as `none`)
and leave the fleet unchanged. -/
def request_elevator (elevators : List Elevator) (floor : Int) (direction : Direction) :
    Option Nat × List Elevator :=
  match select_elevator elevators ⟨floor, direction, RequestSource.external⟩ with
  | some sel =>
    (some sel.id,
     elevators.map fun e =>
       if e.id = sel.id then (add_request e ⟨floor, direction, RequestSource.external⟩).1
       else e)
  | none => (none, elevators)

/-- `ElevatorSystem.select_floor` (INTERNAL / cabin call): look the car
up by id; on success deliver the request, otherwise print "Invalid
elevator ID" (modelled as `none`) and leave the fleet unchanged. -/
def select_floor (elevators : List Elevator) (elevator_id : Nat) (destination_floor : Int) :
    Option Unit × List Elevator :=
  match elevators.find? (fun e => e.id = elevator_id) with
  | some _ =>
    (some (),
     elevators.map fun e =>
       if e.id = elevator_id then
         (add_request e ⟨destination_floor, Direction.idle, RequestSource.internal⟩).1
       else e)
  | none => (none, elevators)

/-- `Elevator.notify_observers`: call `observer.update(self)` on each
observer in order.  An observer raising is modelled as returning
`some exc`; the loop has no try/except, so the first exception aborts
the loop and propagates.  The result records how many observers were
invoked and the escaping exception, if any. -/
def notify_observers (observers : List (Elevator → Option Unit)) (e : Elevator) :
    Nat × Option Unit :=
  match observers with
  | [] => (0, none)
  | o :: rest =>
    match o e with
    | some exc => (1, some exc)
    | none =>
      let res := notify_observers rest e
      (res.1 + 1, res.2)

/-- `Elevator.__init__`: floor 1, `IdleState`, empty stop sets. -/
def initialElevator (i : Nat) : Elevator :=
  { id := i, current_floor := 1, state := ElevatorState.idle,
    up_requests := ∅, down_requests := ∅ }

/-- The fleet built by `ElevatorSystem.__init__`: `Elevator(i)` for
`i in range(num_elevators)`, kept in id order. -/
def buildFleet (num_elevators : Nat) : List Elevator :=
  (List.range num_elevators).map initialElevator

/-- One interleaving step on a single car: either its worker runs one
tick (`move`) or some request is delivered to it (`add_request`). -/
inductive Step : Elevator → Elevator → Prop where
  | tick (e : Elevator) : Step e (move e).1
  | req (e : Elevator) (r : Request) : Step e (add_request e r).1

/-- States reachable from the freshly constructed car `i` by any
interleaving of ticks and request deliveries. -/
def Reachable (i : Nat) (e : Elevator) : Prop :=
  Relation.ReflTransGen Step (initialElevator i) e

/-! ### Basic facts about `add_request` -/

lemma add_request_state (e : Elevator) (r : Request) :
    (add_request e r).1.state = e.state := by
  rcases e with ⟨i, cf, st, up, down⟩
  cases st <;> simp only [add_request] <;> split_ifs <;> rfl

lemma add_request_floor (e : Elevator) (r : Request) :
    (add_request e r).1.current_floor = e.current_floor := by
  rcases e with ⟨i, cf, st, up, down⟩
  cases st <;> simp only [add_request] <;> split_ifs <;> rfl

lemma add_request_events (e : Elevator) (r : Request) :
    (add_request e r).2 = [Ev.processed] := by
  rcases e with ⟨i, cf, st, up, down⟩
  cases st <;> simp only [add_request] <;> split_ifs <;> rfl

lemma add_request_up_sub (e : Elevator) (r : Request) :
    e.up_requests ⊆ (add_request e r).1.up_requests := by
  rcases e with ⟨i, cf, st, up, down⟩
  cases st <;> simp only [add_request] <;> split_ifs <;>
    first
      | exact Finset.Subset.refl _
      | exact Finset.subset_insert _ _

lemma add_request_down_sub (e : Elevator) (r : Request) :
    e.down_requests ⊆ (add_request e r).1.down_requests := by
  rcases e with ⟨i, cf, st, up, down⟩
  cases st <;> simp only [add_request] <;> split_ifs <;>
    first
      | exact Finset.Subset.refl _
      | exact Finset.subset_insert _ _

lemma add_up_inserted (e : Elevator) (r : Request) (f : Int)
    (hnew : f ∈ (add_request e r).1.up_requests) (hold : f ∉ e.up_requests) :
    f = r.target_floor ∧
      (e.current_floor ≤ f ∨
        (e.state = ElevatorState.movingDown ∧ r.source = RequestSource.external ∧
          r.direction = Direction.up)) := by
  rcases e with ⟨i, cf, st, up, down⟩
  rcases r with ⟨t, d, src⟩
  cases st <;> simp only [add_request] at hnew <;>
    split_ifs at hnew with h1 h2 h3 <;>
    simp_all <;>
    first
      | omega
      | (cases src <;> simp_all)

lemma add_down_inserted (e : Elevator) (r : Request) (f : Int)
    (hnew : f ∈ (add_request e r).1.down_requests) (hold : f ∉ e.down_requests) :
    f = r.target_floor ∧
      (f ≤ e.current_floor ∨
        (e.state = ElevatorState.movingUp ∧ r.source = RequestSource.external ∧
          r.direction = Direction.down)) := by
  rcases e with ⟨i, cf, st, up, down⟩
  rcases r with ⟨t, d, src⟩
  cases st <;> simp only [add_request] at hnew <;>
    split_ifs at hnew with h1 h2 h3 <;>
    simp_all <;>
    first
      | omega
      | (cases src <;> simp_all)

/-! ### Basic facts about `move` -/

lemma move_idle (e : Elevator) (hst : e.state = ElevatorState.idle) :
    (e.up_requests ≠ ∅ ∧ move e = ({e with state := ElevatorState.movingUp}, [Ev.notify])) ∨
    (e.up_requests = ∅ ∧ e.down_requests ≠ ∅ ∧
      move e = ({e with state := ElevatorState.movingDown}, [Ev.notify])) ∨
    (e.up_requests = ∅ ∧ e.down_requests = ∅ ∧ move e = (e, [])) := by
  rcases e with ⟨i, cf, st, up, down⟩
  obtain rfl : st = ElevatorState.idle := hst
  by_cases hu : up = ∅
  · by_cases hd : down = ∅
    · exact Or.inr (Or.inr ⟨hu, hd, by simp [move, hu, hd]⟩)
    · exact Or.inr (Or.inl ⟨hu, hd, by simp [move, hu, hd]⟩)
  · exact Or.inl ⟨hu, by simp [move, hu]⟩

lemma move_up_empty (e : Elevator) (hst : e.state = ElevatorState.movingUp)
    (he : e.up_requests = ∅) :
    move e = ({e with state := ElevatorState.idle}, [Ev.notify]) := by
  rcases e with ⟨i, cf, st, up, down⟩
  obtain rfl : st = ElevatorState.movingUp := hst
  simp only at he
  simp [move, he]

lemma move_down_empty (e : Elevator) (hst : e.state = ElevatorState.movingDown)
    (he : e.down_requests = ∅) :
    move e = ({e with state := ElevatorState.idle}, [Ev.notify]) := by
  rcases e with ⟨i, cf, st, up, down⟩
  obtain rfl : st = ElevatorState.movingDown := hst
  simp only at he
  simp [move, he]

lemma move_up_nonempty (e : Elevator) (hst : e.state = ElevatorState.movingUp)
    (h : e.up_requests.Nonempty) :
    move e =
      ({e with
          current_floor := e.current_floor + 1,
          up_requests :=
            if e.current_floor + 1 = e.up_requests.min' h then
              e.up_requests.erase (e.up_requests.min' h)
            else e.up_requests,
          state :=
            if (if e.current_floor + 1 = e.up_requests.min' h then
                  e.up_requests.erase (e.up_requests.min' h)
                else e.up_requests) = ∅ then ElevatorState.idle
            else ElevatorState.movingUp},
       [Ev.notify] ++
         (if e.current_floor + 1 = e.up_requests.min' h then
            [Ev.stopped (e.up_requests.min' h)] else []) ++
         (if (if e.current_floor + 1 = e.up_requests.min' h then
                e.up_requests.erase (e.up_requests.min' h)
              else e.up_requests) = ∅ then [Ev.notify] else [])) := by
  rcases e with ⟨i, cf, st, up, down⟩
  obtain rfl : st = ElevatorState.movingUp := hst
  simp only at h ⊢
  simp only [move]
  rw [dif_pos h]
  split_ifs with h1 h2 h3 <;>
    first
      | rfl
      | exact absurd (by assumption) (Finset.nonempty_iff_ne_empty.mp h)

lemma move_down_nonempty (e : Elevator) (hst : e.state = ElevatorState.movingDown)
    (h : e.down_requests.Nonempty) :
    move e =
      ({e with
          current_floor := e.current_floor - 1,
          down_requests :=
            if e.current_floor - 1 = e.down_requests.max' h then
              e.down_requests.erase (e.down_requests.max' h)
            else e.down_requests,
          state :=
            if (if e.current_floor - 1 = e.down_requests.max' h then
                  e.down_requests.erase (e.down_requests.max' h)
                else e.down_requests) = ∅ then ElevatorState.idle
            else ElevatorState.movingDown},
       [Ev.notify] ++
         (if e.current_floor - 1 = e.down_requests.max' h then
            [Ev.stopped (e.down_requests.max' h)] else []) ++
         (if (if e.current_floor - 1 = e.down_requests.max' h then
                e.down_requests.erase (e.down_requests.max' h)
              else e.down_requests) = ∅ then [Ev.notify] else [])) := by
  rcases e with ⟨i, cf, st, up, down⟩
  obtain rfl : st = ElevatorState.movingDown := hst
  simp only at h ⊢
  simp only [move]
  rw [dif_pos h]
  split_ifs with h1 h2 h3 <;>
    first
      | rfl
      | exact absurd (by assumption) (Finset.nonempty_iff_ne_empty.mp h)

lemma move_up_cases (e : Elevator) (hst : e.state = ElevatorState.movingUp) :
    ((move e).1.state = ElevatorState.idle ∧ (move e).1.up_requests = ∅) ∨
    ((move e).1.state = ElevatorState.movingUp ∧ (move e).1.up_requests.Nonempty) := by
  by_cases h : e.up_requests.Nonempty
  · rw [move_up_nonempty e hst h]
    by_cases h2 : (if e.current_floor + 1 = e.up_requests.min' h then
        e.up_requests.erase (e.up_requests.min' h) else e.up_requests) = ∅
    · left
      simp [h2]
    · right
      simp [h2, Finset.nonempty_iff_ne_empty]
  · rw [move_up_empty e hst (Finset.not_nonempty_iff_eq_empty.mp h)]
    exact Or.inl ⟨rfl, Finset.not_nonempty_iff_eq_empty.mp h⟩

lemma move_down_cases (e : Elevator) (hst : e.state = ElevatorState.movingDown) :
    ((move e).1.state = ElevatorState.idle ∧ (move e).1.down_requests = ∅) ∨
    ((move e).1.state = ElevatorState.movingDown ∧ (move e).1.down_requests.Nonempty) := by
  by_cases h : e.down_requests.Nonempty
  · rw [move_down_nonempty e hst h]
    by_cases h2 : (if e.current_floor - 1 = e.down_requests.max' h then
        e.down_requests.erase (e.down_requests.max' h) else e.down_requests) = ∅
    · left
      simp [h2]
    · right
      simp [h2, Finset.nonempty_iff_ne_empty]
  · rw [move_down_empty e hst (Finset.not_nonempty_iff_eq_empty.mp h)]
    exact Or.inl ⟨rfl, Finset.not_nonempty_iff_eq_empty.mp h⟩

lemma move_up_keeps_down (e : Elevator) (hst : e.state = ElevatorState.movingUp) :
    (move e).1.down_requests = e.down_requests := by
  by_cases h : e.up_requests.Nonempty
  · rw [move_up_nonempty e hst h]
  · rw [move_up_empty e hst (Finset.not_nonempty_iff_eq_empty.mp h)]

lemma move_down_keeps_up (e : Elevator) (hst : e.state = ElevatorState.movingDown) :
    (move e).1.up_requests = e.up_requests := by
  by_cases h : e.down_requests.Nonempty
  · rw [move_down_nonempty e hst h]
  · rw [move_down_empty e hst (Finset.not_nonempty_iff_eq_empty.mp h)]

lemma move_up_serves (e : Elevator) (hst : e.state = ElevatorState.movingUp) :
    ∀ f ∈ e.up_requests, f ∉ (move e).1.up_requests → (move e).1.current_floor = f := by
  intro f hf hnf
  by_cases h : e.up_requests.Nonempty
  · rw [move_up_nonempty e hst h] at hnf ⊢
    simp only at hnf ⊢
    by_cases h1 : e.current_floor + 1 = e.up_requests.min' h
    · simp only [if_pos h1] at hnf
      have hfm : f = e.up_requests.min' h := by
        by_contra hne
        exact hnf (Finset.mem_erase.mpr ⟨hne, hf⟩)
      rw [hfm]
      exact h1
    · simp only [if_neg h1] at hnf
      exact absurd hf hnf
  · rw [Finset.not_nonempty_iff_eq_empty.mp h] at hf
    exact absurd hf (Finset.not_mem_empty f)

lemma move_down_serves (e : Elevator) (hst : e.state = ElevatorState.movingDown) :
    ∀ f ∈ e.down_requests, f ∉ (move e).1.down_requests → (move e).1.current_floor = f := by
  intro f hf hnf
  by_cases h : e.down_requests.Nonempty
  · rw [move_down_nonempty e hst h] at hnf ⊢
    simp only at hnf ⊢
    by_cases h1 : e.current_floor - 1 = e.down_requests.max' h
    · simp only [if_pos h1] at hnf
      have hfm : f = e.down_requests.max' h := by
        by_contra hne
        exact hnf (Finset.mem_erase.mpr ⟨hne, hf⟩)
      rw [hfm]
      exact h1
    · simp only [if_neg h1] at hnf
      exact absurd hf hnf
  · rw [Finset.not_nonempty_iff_eq_empty.mp h] at hf
    exact absurd hf (Finset.not_mem_empty f)

/-! ### The reachable-state invariant behind claim C2 -/

/-- A moving car always has a pending stop in its direction of travel. -/
def stopInv (e : Elevator) : Prop :=
  (e.state = ElevatorState.movingUp → e.up_requests.Nonempty) ∧
  (e.state = ElevatorState.movingDown → e.down_requests.Nonempty)

lemma stopInv_step (e e' : Elevator) (h : Step e e') (hi : stopInv e) : stopInv e' := by
  cases h with
  | tick =>
    rcases hs : e.state with _ | _ | _
    · rcases move_idle e hs with ⟨hu, hm⟩ | ⟨hu, hd, hm⟩ | ⟨hu, hd, hm⟩ <;> rw [hm]
      · exact ⟨fun _ => Finset.nonempty_iff_ne_empty.mpr hu, fun hc => by simp at hc⟩
      · exact ⟨fun hc => by simp at hc, fun _ => Finset.nonempty_iff_ne_empty.mpr hd⟩
      · exact hi
    · rcases move_up_cases e hs with ⟨h1, _⟩ | ⟨h1, h2⟩
      · refine ⟨fun hc => ?_, fun hc => ?_⟩ <;> rw [h1] at hc <;> simp at hc
      · refine ⟨fun _ => h2, fun hc => ?_⟩
        rw [h1] at hc
        simp at hc
    · rcases move_down_cases e hs with ⟨h1, _⟩ | ⟨h1, h2⟩
      · refine ⟨fun hc => ?_, fun hc => ?_⟩ <;> rw [h1] at hc <;> simp at hc
      · refine ⟨fun hc => ?_, fun _ => h2⟩
        rw [h1] at hc
        simp at hc
  | req r =>
    have hs := add_request_state e r
    refine ⟨fun hc => ?_, fun hc => ?_⟩
    · rw [hs] at hc
      exact (hi.1 hc).mono (add_request_up_sub e r)
    · rw [hs] at hc
      exact (hi.2 hc).mono (add_request_down_sub e r)

lemma stopInv_reachable (i : Nat) (e : Elevator) (h : Reachable i e) : stopInv e := by
  induction h with
  | refl =>
    exact ⟨fun hc => by simp [initialElevator] at hc,
      fun hc => by simp [initialElevator] at hc⟩
  | tail hab hbc ih => exact stopInv_step _ _ hbc ih

/-! ### Claim theorems -/

/-- C1: in the MovingUp state, a tick on a car with pending up stops computes
`next_stop = min(up_stops)`, increments `current_floor` by 1, removes
`next_stop` (printing the stopped-at-floor message) exactly when the new
floor equals it, leaves `down_stops` untouched, and ends Idle exactly when
`up_stops` has become empty, with no condition on `down_stops`; with
`up_stops` already empty at tick entry it goes Idle without moving.
MovingDown is the mirror with `max(down_stops)` and a decrement. -/
theorem c1_moving_tick_spec (e : Elevator) :
    (e.state = ElevatorState.movingUp →
      (e.up_requests = ∅ →
        move e = ({e with state := ElevatorState.idle}, [Ev.notify])) ∧
      (∀ h : e.up_requests.Nonempty,
        (move e).1.current_floor = e.current_floor + 1 ∧
        (move e).1.down_requests = e.down_requests ∧
        ((move e).1.up_requests =
          if e.current_floor + 1 = e.up_requests.min' h then
            e.up_requests.erase (e.up_requests.min' h)
          else e.up_requests) ∧
        (e.current_floor + 1 = e.up_requests.min' h →
          Ev.stopped (e.up_requests.min' h) ∈ (move e).2) ∧
        (e.current_floor + 1 ≠ e.up_requests.min' h →
          (move e).1.up_requests = e.up_requests) ∧
        ((move e).1.state = ElevatorState.idle ↔ (move e).1.up_requests = ∅))) ∧
    (e.state = ElevatorState.movingDown →
      (e.down_requests = ∅ →
        move e = ({e with state := ElevatorState.idle}, [Ev.notify])) ∧
      (∀ h : e.down_requests.Nonempty,
        (move e).1.current_floor = e.current_floor - 1 ∧
        (move e).1.up_requests = e.up_requests ∧
        ((move e).1.down_requests =
          if e.current_floor - 1 = e.down_requests.max' h then
            e.down_requests.erase (e.down_requests.max' h)
          else e.down_requests) ∧
        (e.current_floor - 1 = e.down_requests.max' h →
          Ev.stopped (e.down_requests.max' h) ∈ (move e).2) ∧
        (e.current_floor - 1 ≠ e.down_requests.max' h →
          (move e).1.down_requests = e.down_requests) ∧
        ((move e).1.state = ElevatorState.idle ↔ (move e).1.down_requests = ∅))) := by
  constructor
  · intro hst
    refine ⟨move_up_empty e hst, fun h => ?_⟩
    rw [move_up_nonempty e hst h]
    refine ⟨rfl, rfl, rfl, fun h1 => ?_, fun h1 => ?_, ?_⟩
    · simp only [if_pos h1]
      simp
    · simp only [if_neg h1]
    · by_cases h2 : (if e.current_floor + 1 = e.up_requests.min' h then
          e.up_requests.erase (e.up_requests.min' h) else e.up_requests) = ∅ <;>
        simp [h2]
  · intro hst
    refine ⟨move_down_empty e hst, fun h => ?_⟩
    rw [move_down_nonempty e hst h]
    refine ⟨rfl, rfl, rfl, fun h1 => ?_, fun h1 => ?_, ?_⟩
    · simp only [if_pos h1]
      simp
    · simp only [if_neg h1]
    · by_cases h2 : (if e.current_floor - 1 = e.down_requests.max' h then
          e.down_requests.erase (e.down_requests.max' h) else e.down_requests) = ∅ <;>
        simp [h2]

theorem c1_witness :
    (move { id := 0, current_floor := 1, state := ElevatorState.movingUp,
            up_requests := {2}, down_requests := ∅ }).1.current_floor = 1 + 1 :=
  (((c1_moving_tick_spec _).1 rfl).2 (by decide)).1

/-- C2 (amended): for every reachable car state, a MovingUp car has a
non-empty `up_stops`, a MovingDown car has a non-empty `down_stops`, and a
car with both stop sets empty is Idle; the converse (Idle implies both
sets empty) fails because `add_request` on an Idle car enqueues a stop
without leaving the Idle state until the next tick. -/
theorem c2_motion_stop_sets (i : Nat) (e : Elevator) (h : Reachable i e) :
    (e.state = ElevatorState.movingUp → e.up_requests.Nonempty) ∧
    (e.state = ElevatorState.movingDown → e.down_requests.Nonempty) ∧
    (e.up_requests = ∅ ∧ e.down_requests = ∅ → e.state = ElevatorState.idle) := by
  have hi := stopInv_reachable i e h
  refine ⟨hi.1, hi.2, fun hc => ?_⟩
  rcases hs : e.state with _ | _ | _
  · rfl
  · exact absurd hc.1 (Finset.nonempty_iff_ne_empty.mp (hi.1 hs))
  · exact absurd hc.2 (Finset.nonempty_iff_ne_empty.mp (hi.2 hs))

theorem c2_witness : (initialElevator 0).state = ElevatorState.idle :=
  (c2_motion_stop_sets 0 (initialElevator 0) Relation.ReflTransGen.refl).2.2 ⟨rfl, rfl⟩

/-- C2 counterexample: after one `add_request` on the freshly constructed
car, the reachable state is still Idle yet `up_stops = {5}` is non-empty,
so "motion is Idle iff both stop sets are empty" fails on reachable
states. -/
theorem c2_counterexample :
    Reachable 0 (add_request (initialElevator 0)
        ⟨5, Direction.up, RequestSource.external⟩).1 ∧
    (add_request (initialElevator 0)
        ⟨5, Direction.up, RequestSource.external⟩).1.state = ElevatorState.idle ∧
    (add_request (initialElevator 0)
        ⟨5, Direction.up, RequestSource.external⟩).1.up_requests ≠ ∅ :=
  ⟨Relation.ReflTransGen.single (Step.req _ _), by decide, by decide⟩

/-- C3 (amended): a floor inserted into `up_stops` is ≥ the current floor
at insertion time unless it comes from a Hall-origin Up request delivered
to a MovingDown car, which `MovingDownState.add_request` adds to
`up_stops` unconditionally; symmetrically a floor inserted into
`down_stops` is ≤ the current floor unless it comes from a Hall-origin
Down request delivered to a MovingUp car. -/
theorem c3_insertion_bounds (e : Elevator) (r : Request) (f : Int) :
    (f ∈ (add_request e r).1.up_requests → f ∉ e.up_requests →
      e.current_floor ≤ f ∨
        (e.state = ElevatorState.movingDown ∧ r.source = RequestSource.external ∧
          r.direction = Direction.up)) ∧
    (f ∈ (add_request e r).1.down_requests → f ∉ e.down_requests →
      f ≤ e.current_floor ∨
        (e.state = ElevatorState.movingUp ∧ r.source = RequestSource.external ∧
          r.direction = Direction.down)) :=
  ⟨fun hnew hold => (add_up_inserted e r f hnew hold).2,
   fun hnew hold => (add_down_inserted e r f hnew hold).2⟩

theorem c3_witness :
    (initialElevator 0).current_floor ≤ 5 ∨
      ((initialElevator 0).state = ElevatorState.movingDown ∧
        (⟨5, Direction.up, RequestSource.external⟩ : Request).source =
          RequestSource.external ∧
        (⟨5, Direction.up, RequestSource.external⟩ : Request).direction = Direction.up) :=
  (c3_insertion_bounds (initialElevator 0) ⟨5, Direction.up, RequestSource.external⟩ 5).1
    (by decide) (by decide)

/-- C3 counterexample: the reachable car that went Idle → MovingUp at
floor 1 with `up_stops = {3}` receives a Hall Down request for floor 5;
the code inserts 5 into `down_stops` although 5 > 1, violating the
"only floors ≤ current_floor enter down_stops" claim. -/
theorem c3_counterexample :
    Reachable 0 (move (add_request (initialElevator 0)
        ⟨3, Direction.up, RequestSource.external⟩).1).1 ∧
    (move (add_request (initialElevator 0)
        ⟨3, Direction.up, RequestSource.external⟩).1).1.state = ElevatorState.movingUp ∧
    (5 : Int) ∉ (move (add_request (initialElevator 0)
        ⟨3, Direction.up, RequestSource.external⟩).1).1.down_requests ∧
    (5 : Int) ∈ (add_request (move (add_request (initialElevator 0)
        ⟨3, Direction.up, RequestSource.external⟩).1).1
        ⟨5, Direction.down, RequestSource.external⟩).1.down_requests ∧
    (move (add_request (initialElevator 0)
        ⟨3, Direction.up, RequestSource.external⟩).1).1.current_floor < 5 :=
  ⟨(Relation.ReflTransGen.single (Step.req _ _)).tail (Step.tick _),
   by decide, by decide, by decide, by decide⟩

/-- C5 (amended): for an Idle car, a request above the current floor is
added to `up_stops`, one below to `down_stops`; a request for the current
floor leaves both stop sets unchanged and fires no observer notification
at all — `IdleState.add_request` has no equal-floor branch, so the
request is silently dropped rather than acknowledged. -/
theorem c5_idle_routing (e : Elevator) (r : Request)
    (hst : e.state = ElevatorState.idle) :
    (r.target_floor > e.current_floor →
      add_request e r =
        ({e with up_requests := insert r.target_floor e.up_requests}, [Ev.processed])) ∧
    (r.target_floor < e.current_floor →
      add_request e r =
        ({e with down_requests := insert r.target_floor e.down_requests}, [Ev.processed])) ∧
    (r.target_floor = e.current_floor →
      add_request e r = (e, [Ev.processed])) ∧
    Ev.notify ∉ (add_request e r).2 := by
  rcases e with ⟨i, cf, st, up, down⟩
  obtain rfl : st = ElevatorState.idle := hst
  refine ⟨fun h1 => ?_, fun h1 => ?_, fun h1 => ?_, ?_⟩
  · simp only at h1
    simp [add_request, h1]
  · simp only at h1
    have h2 : ¬ r.target_floor > cf := by omega
    simp [add_request, h1, h2]
  · simp only at h1
    have h2 : ¬ r.target_floor > cf := by omega
    have h3 : ¬ r.target_floor < cf := by omega
    simp [add_request, h2, h3]
  · rw [add_request_events]
    simp

theorem c5_witness :
    add_request (initialElevator 0) ⟨5, Direction.up, RequestSource.external⟩ =
      ({initialElevator 0 with
          up_requests := insert 5 (initialElevator 0).up_requests}, [Ev.processed]) :=
  (c5_idle_routing (initialElevator 0) ⟨5, Direction.up, RequestSource.external⟩ rfl).1
    (by decide)

/-- C5 counterexample: an Idle car at floor 1 receiving a request for
floor 1 keeps its state unchanged and emits no observer notification,
refuting the claimed immediate notification of observers. -/
theorem c5_counterexample :
    (add_request (initialElevator 0) ⟨1, Direction.up, RequestSource.external⟩).1 =
      initialElevator 0 ∧
    Ev.notify ∉
      (add_request (initialElevator 0) ⟨1, Direction.up, RequestSource.external⟩).2 := by
  constructor
  · decide
  · decide

/-- C7: delivering the same request twice is the same as delivering it
once — the stop containers are sets, the comparison floor and motion
state are unchanged by the first delivery, so the second insert is
absorbed and the car will stop at the floor once, not twice. -/
theorem c7_add_request_idempotent (e : Elevator) (r : Request) :
    add_request (add_request e r).1 r = add_request e r := by
  rcases e with ⟨i, cf, st, up, down⟩
  rcases r with ⟨t, d, src⟩
  cases st
  case idle =>
    rcases lt_trichotomy cf t with h | h | h
    · have h1 : t > cf := h
      simp [add_request, h1, Finset.insert_idem]
    · have h1 : ¬ t > cf := by omega
      have h2 : ¬ t < cf := by omega
      simp [add_request, h1, h2]
    · have h1 : ¬ t > cf := by omega
      simp [add_request, h1, h, Finset.insert_idem]
  case movingUp =>
    by_cases hsrc : src = RequestSource.internal
    · by_cases h1 : t > cf <;> simp [add_request, hsrc, h1, Finset.insert_idem]
    · by_cases h1 : d = Direction.up ∧ t ≥ cf
      · simp [add_request, hsrc, h1, Finset.insert_idem]
      · by_cases h2 : d = Direction.down <;>
          simp [add_request, hsrc, h1, h2, Finset.insert_idem]
  case movingDown =>
    by_cases hsrc : src = RequestSource.internal
    · by_cases h1 : t > cf <;> simp [add_request, hsrc, h1, Finset.insert_idem]
    · by_cases h1 : d = Direction.down ∧ t ≤ cf
      · simp [add_request, hsrc, h1, Finset.insert_idem]
      · by_cases h2 : d = Direction.up <;>
          simp [add_request, hsrc, h1, h2, Finset.insert_idem]

/-- C10: a MovingUp car silently drops a Hall-origin Up request strictly
below its current floor (no stop set changes, no error, only the
processing print), and a MovingDown car silently drops a Hall-origin
Down request strictly above its current floor. -/
theorem c10_silent_discard (e : Elevator) (r : Request) :
    (e.state = ElevatorState.movingUp → r.source = RequestSource.external →
      r.direction = Direction.up → r.target_floor < e.current_floor →
      add_request e r = (e, [Ev.processed])) ∧
    (e.state = ElevatorState.movingDown → r.source = RequestSource.external →
      r.direction = Direction.down → e.current_floor < r.target_floor →
      add_request e r = (e, [Ev.processed])) := by
  constructor
  · intro hst hsrc hdir htgt
    rcases e with ⟨i, cf, st, up, down⟩
    obtain rfl : st = ElevatorState.movingUp := hst
    simp only at htgt
    have h1 : ¬ r.target_floor ≥ cf := by omega
    simp [add_request, hsrc, hdir, h1]
  · intro hst hsrc hdir htgt
    rcases e with ⟨i, cf, st, up, down⟩
    obtain rfl : st = ElevatorState.movingDown := hst
    simp only at htgt
    have h1 : ¬ r.target_floor ≤ cf := by omega
    simp [add_request, hsrc, hdir, h1]

theorem c10_witness :
    add_request
        { id := 0, current_floor := 5, state := ElevatorState.movingUp,
          up_requests := {7}, down_requests := ∅ }
        ⟨2, Direction.up, RequestSource.external⟩ =
      ({ id := 0, current_floor := 5, state := ElevatorState.movingUp,
         up_requests := {7}, down_requests := ∅ }, [Ev.processed]) :=
  (c10_silent_discard _ _).1 rfl rfl rfl (by decide)

/-! ### The selection loop of `NearestElevatorStartegy` -/

lemma selStep_eq_none_iff (r : Request) (acc : Option (Elevator × Nat)) (e : Elevator) :
    selStep r acc e = none ↔ acc = none ∧ is_suitable e r = false := by
  cases acc with
  | none =>
    by_cases hs : is_suitable e r = true
    · simp [selStep, hs]
    · rw [Bool.not_eq_true] at hs
      simp [selStep, hs]
  | some p =>
    rcases p with ⟨b, bd⟩
    by_cases hs : is_suitable e r = true
    · by_cases hlt : distanceTo e r < bd <;> simp [selStep, hs, hlt]
    · rw [Bool.not_eq_true] at hs
      simp [selStep, hs]

lemma selFold_none_iff (r : Request) (l : List Elevator) :
    ∀ acc : Option (Elevator × Nat),
      l.foldl (selStep r) acc = none ↔
        acc = none ∧ ∀ e ∈ l, is_suitable e r = false := by
  induction l with
  | nil =>
    intro acc
    simp
  | cons e0 l ih =>
    intro acc
    rw [List.foldl_cons, ih (selStep r acc e0), selStep_eq_none_iff]
    constructor
    · rintro ⟨⟨ha, he⟩, hall⟩
      refine ⟨ha, fun x hx => ?_⟩
      rcases List.mem_cons.mp hx with rfl | hx
      · exact he
      · exact hall x hx
    · rintro ⟨ha, hall⟩
      exact ⟨⟨ha, hall e0 (List.mem_cons_self e0 l)⟩,
        fun x hx => hall x (List.mem_cons_of_mem e0 hx)⟩

lemma selFold_some_spec (r : Request) (l : List Elevator) :
    ∀ (acc : Option (Elevator × Nat)) (b : Elevator) (bd : Nat),
      (∀ a ad, acc = some (a, ad) → ad = distanceTo a r) →
      l.foldl (selStep r) acc = some (b, bd) →
      bd = distanceTo b r ∧
      (acc = some (b, bd) ∨ (b ∈ l ∧ is_suitable b r = true)) ∧
      (∀ e ∈ l, is_suitable e r = true → bd ≤ distanceTo e r) ∧
      (∀ a ad, acc = some (a, ad) → bd ≤ ad ∧ (bd = ad → b = a)) := by
  induction l with
  | nil =>
    intro acc b bd hacc hfold
    simp only [List.foldl_nil] at hfold
    subst hfold
    refine ⟨hacc b bd rfl, Or.inl rfl, by simp, fun a ad ha => ?_⟩
    simp only [Option.some.injEq, Prod.mk.injEq] at ha
    obtain ⟨rfl, rfl⟩ := ha
    exact ⟨le_refl _, fun _ => rfl⟩
  | cons e0 l ih =>
    intro acc b bd hacc hfold
    rw [List.foldl_cons] at hfold
    have hacc' : ∀ a ad, selStep r acc e0 = some (a, ad) → ad = distanceTo a r := by
      intro a ad h
      by_cases hs : is_suitable e0 r = true
      · cases hae : acc with
        | none =>
          rw [hae] at h
          simp only [selStep, hs, if_true] at h
          simp only [Option.some.injEq, Prod.mk.injEq] at h
          obtain ⟨rfl, rfl⟩ := h
          rfl
        | some p =>
          rcases p with ⟨a0, ad0⟩
          rw [hae] at h
          by_cases hlt : distanceTo e0 r < ad0
          · simp only [selStep, hs, if_true, hlt] at h
            simp only [Option.some.injEq, Prod.mk.injEq] at h
            obtain ⟨rfl, rfl⟩ := h
            rfl
          · simp only [selStep, hs, if_true, hlt, if_false] at h
            simp only [Option.some.injEq, Prod.mk.injEq] at h
            obtain ⟨rfl, rfl⟩ := h
            exact hacc a0 ad0 hae
      · rw [Bool.not_eq_true] at hs
        simp only [selStep, hs] at h
        simp only [Bool.false_eq_true, if_false] at h
        exact hacc a ad h
    obtain ⟨h1, h2, h3, h4⟩ := ih (selStep r acc e0) b bd hacc' hfold
    refine ⟨h1, ?_, ?_, ?_⟩
    · rcases h2 with h2 | ⟨hbl, hbs⟩
      · by_cases hs : is_suitable e0 r = true
        · cases hae : acc with
          | none =>
            rw [hae] at h2
            simp only [selStep, hs, if_true] at h2
            simp only [Option.some.injEq, Prod.mk.injEq] at h2
            obtain ⟨rfl, rfl⟩ := h2
            exact Or.inr ⟨List.mem_cons_self _ _, hs⟩
          | some p =>
            rcases p with ⟨a0, ad0⟩
            rw [hae] at h2
            by_cases hlt : distanceTo e0 r < ad0
            · simp only [selStep, hs, if_true, hlt] at h2
              simp only [Option.some.injEq, Prod.mk.injEq] at h2
              obtain ⟨rfl, rfl⟩ := h2
              exact Or.inr ⟨List.mem_cons_self _ _, hs⟩
            · simp only [selStep, hs, if_true, hlt, if_false] at h2
              simp only [Option.some.injEq, Prod.mk.injEq] at h2
              obtain ⟨rfl, rfl⟩ := h2
              exact Or.inl rfl
        · rw [Bool.not_eq_true] at hs
          simp only [selStep, hs] at h2
          simp only [Bool.false_eq_true, if_false] at h2
          exact Or.inl h2
      · exact Or.inr ⟨List.mem_cons_of_mem e0 hbl, hbs⟩
    · intro x hx hxs
      rcases List.mem_cons.mp hx with rfl | hx
      · cases hae : acc with
        | none =>
          have hstep : selStep r acc x = some (x, distanceTo x r) := by
            simp [selStep, hae, hxs]
          exact (h4 x (distanceTo x r) hstep).1
        | some p =>
          rcases p with ⟨a0, ad0⟩
          by_cases hlt : distanceTo x r < ad0
          · have hstep : selStep r acc x = some (x, distanceTo x r) := by
              simp [selStep, hae, hxs, hlt]
            exact (h4 x (distanceTo x r) hstep).1
          · have hstep : selStep r acc x = some (a0, ad0) := by
              simp [selStep, hae, hxs, hlt]
            have h5 := (h4 a0 ad0 hstep).1
            omega
      · exact h3 x hx hxs
    · intro a ad ha
      subst ha
      by_cases hs : is_suitable e0 r = true
      · by_cases hlt : distanceTo e0 r < ad
        · have hstep : selStep r (some (a, ad)) e0 = some (e0, distanceTo e0 r) := by
            simp [selStep, hs, hlt]
          have h5 := h4 e0 (distanceTo e0 r) hstep
          refine ⟨by omega, fun hbd => ?_⟩
          exfalso
          have h6 := h5.1
          omega
        · have hstep : selStep r (some (a, ad)) e0 = some (a, ad) := by
            simp [selStep, hs, hlt]
          exact h4 a ad hstep
      · rw [Bool.not_eq_true] at hs
        have hstep : selStep r (some (a, ad)) e0 = some (a, ad) := by
          simp [selStep, hs]
        exact h4 a ad hstep

lemma selFold_tie (r : Request) (l : List Elevator) :
    ∀ acc : Option (Elevator × Nat),
      List.Pairwise (fun a b : Elevator => a.id < b.id) l →
      (∀ a ad, acc = some (a, ad) →
        ad = distanceTo a r ∧ ∀ e ∈ l, a.id < e.id) →
      ∀ b bd, l.foldl (selStep r) acc = some (b, bd) →
        ∀ e ∈ l, is_suitable e r = true → distanceTo e r = bd → b.id ≤ e.id := by
  induction l with
  | nil =>
    intro acc _ _ b bd _ x hx
    exact absurd hx (List.not_mem_nil x)
  | cons e0 l ih =>
    intro acc hpair hacc b bd hfold x hx hxs hxd
    rw [List.foldl_cons] at hfold
    have hpair' : List.Pairwise (fun a b : Elevator => a.id < b.id) l :=
      List.Pairwise.of_cons hpair
    have hhead : ∀ y ∈ l, e0.id < y.id := (List.pairwise_cons.mp hpair).1
    have hacc' : ∀ a ad, selStep r acc e0 = some (a, ad) →
        ad = distanceTo a r ∧ ∀ y ∈ l, a.id < y.id := by
      intro a ad h
      by_cases hs : is_suitable e0 r = true
      · cases hae : acc with
        | none =>
          rw [hae] at h
          simp only [selStep, hs, if_true] at h
          simp only [Option.some.injEq, Prod.mk.injEq] at h
          obtain ⟨rfl, rfl⟩ := h
          exact ⟨rfl, hhead⟩
        | some p =>
          rcases p with ⟨a0, ad0⟩
          rw [hae] at h
          by_cases hlt : distanceTo e0 r < ad0
          · simp only [selStep, hs, if_true, hlt] at h
            simp only [Option.some.injEq, Prod.mk.injEq] at h
            obtain ⟨rfl, rfl⟩ := h
            exact ⟨rfl, hhead⟩
          · simp only [selStep, hs, if_true, hlt, if_false] at h
            simp only [Option.some.injEq, Prod.mk.injEq] at h
            obtain ⟨rfl, rfl⟩ := h
            obtain ⟨had, hids⟩ := hacc a0 ad0 hae
            exact ⟨had, fun y hy => hids y (List.mem_cons_of_mem e0 hy)⟩
      · rw [Bool.not_eq_true] at hs
        have hstep : selStep r acc e0 = acc := by
          simp [selStep, hs]
        rw [hstep] at h
        obtain ⟨had, hids⟩ := hacc a ad h
        exact ⟨had, fun y hy => hids y (List.mem_cons_of_mem e0 hy)⟩
    rcases List.mem_cons.mp hx with rfl | hxl
    · cases hae : acc with
      | none =>
        have hstep : selStep r acc x = some (x, distanceTo x r) := by
          simp [selStep, hae, hxs]
        have hspec := selFold_some_spec r l (selStep r acc x) b bd
          (fun a ad h => (hacc' a ad h).1) hfold
        have h5 := hspec.2.2.2 x (distanceTo x r) hstep
        have hbx : b = x := h5.2 (by omega)
        exact le_of_eq (congrArg Elevator.id hbx)
      | some p =>
        rcases p with ⟨a0, ad0⟩
        by_cases hlt : distanceTo x r < ad0
        · have hstep : selStep r acc x = some (x, distanceTo x r) := by
            simp [selStep, hae, hxs, hlt]
          have hspec := selFold_some_spec r l (selStep r acc x) b bd
            (fun a ad h => (hacc' a ad h).1) hfold
          have h5 := hspec.2.2.2 x (distanceTo x r) hstep
          have hbx : b = x := h5.2 (by omega)
          exact le_of_eq (congrArg Elevator.id hbx)
        · have hstep : selStep r acc x = some (a0, ad0) := by
            simp [selStep, hae, hxs, hlt]
          have hspec := selFold_some_spec r l (selStep r acc x) b bd
            (fun a ad h => (hacc' a ad h).1) hfold
          have h5 := hspec.2.2.2 a0 ad0 hstep
          have hba : b = a0 := h5.2 (by omega)
          have hids := (hacc a0 ad0 hae).2
          rw [hba]
          exact le_of_lt (hids x (List.mem_cons_self x l))
    · exact ih (selStep r acc e0) hpair' hacc' b bd hfold x hxl hxs hxd

lemma select_elevator_none_iff (elevators : List Elevator) (r : Request) :
    select_elevator elevators r = none ↔ ∀ e ∈ elevators, is_suitable e r = false := by
  unfold select_elevator
  rw [Option.map_eq_none', selFold_none_iff r elevators none]
  simp

lemma select_elevator_some (elevators : List Elevator) (r : Request) (sel : Elevator)
    (h : select_elevator elevators r = some sel) :
    ∃ bd, elevators.foldl (selStep r) none = some (sel, bd) := by
  unfold select_elevator at h
  rw [Option.map_eq_some'] at h
  obtain ⟨⟨b, bd⟩, hfold, rfl⟩ := h
  exact ⟨bd, hfold⟩

/-- C4: `select_elevator` returns only suitable cars (Idle, or moving in
the request direction without having passed the target); among the
suitable cars it returns one at minimal `abs(current_floor - target)`,
ties resolving to the lowest car id whenever the fleet list is ordered
by strictly increasing ids (as `ElevatorSystem.__init__` builds it); and
it returns `None` exactly when no car is suitable. -/
theorem c4_nearest_selection (elevators : List Elevator) (r : Request) :
    (∀ sel, select_elevator elevators r = some sel →
      sel ∈ elevators ∧ is_suitable sel r = true ∧
      (∀ e ∈ elevators, is_suitable e r = true → distanceTo sel r ≤ distanceTo e r) ∧
      (List.Pairwise (fun a b : Elevator => a.id < b.id) elevators →
        ∀ e ∈ elevators, is_suitable e r = true →
          distanceTo e r = distanceTo sel r → sel.id ≤ e.id)) ∧
    (select_elevator elevators r = none ↔ ∀ e ∈ elevators, is_suitable e r = false) := by
  constructor
  · intro sel hsel
    obtain ⟨bd, hfold⟩ := select_elevator_some elevators r sel hsel
    obtain ⟨h1, h2, h3, _⟩ := selFold_some_spec r elevators none sel bd (by simp) hfold
    rcases h2 with h2 | ⟨hmem, hsuit⟩
    · simp at h2
    · refine ⟨hmem, hsuit, ?_, ?_⟩
      · intro e he hse
        have h6 := h3 e he hse
        omega
      · intro hpw e he hse hde
        exact selFold_tie r elevators none hpw (by simp) sel bd hfold e he hse (by omega)
  · exact select_elevator_none_iff elevators r

theorem c4_witness : initialElevator 0 ∈ buildFleet 2 :=
  ((c4_nearest_selection (buildFleet 2) ⟨5, Direction.up, RequestSource.external⟩).1
    (initialElevator 0) (by decide)).1

/-- C6: a car never reverses in one step: no Step takes MovingUp directly
to MovingDown or vice versa; a MovingUp car that goes Idle does so only
with `up_stops` exhausted; MovingDown (resp. MovingUp) is entered only
from Idle — for MovingDown additionally with `up_stops` already empty —
and while moving, a floor leaves the active stop set only when the car
arrives exactly at it. -/
theorem c6_no_mid_reversal (e e' : Elevator) (h : Step e e') :
    (¬(e.state = ElevatorState.movingUp ∧ e'.state = ElevatorState.movingDown)) ∧
    (¬(e.state = ElevatorState.movingDown ∧ e'.state = ElevatorState.movingUp)) ∧
    (e.state = ElevatorState.movingUp → e'.state = ElevatorState.idle →
      e'.up_requests = ∅) ∧
    (e.state = ElevatorState.movingDown → e'.state = ElevatorState.idle →
      e'.down_requests = ∅) ∧
    (e.state ≠ ElevatorState.movingDown → e'.state = ElevatorState.movingDown →
      e.state = ElevatorState.idle ∧ e.up_requests = ∅ ∧ e.down_requests ≠ ∅) ∧
    (e.state ≠ ElevatorState.movingUp → e'.state = ElevatorState.movingUp →
      e.state = ElevatorState.idle ∧ e.up_requests ≠ ∅) ∧
    (e.state = ElevatorState.movingUp →
      ∀ f ∈ e.up_requests, f ∉ e'.up_requests → e'.current_floor = f) ∧
    (e.state = ElevatorState.movingDown →
      ∀ f ∈ e.down_requests, f ∉ e'.down_requests → e'.current_floor = f) := by
  cases h with
  | req r =>
    have hs := add_request_state e r
    have hu := add_request_up_sub e r
    have hd := add_request_down_sub e r
    refine ⟨?_, ?_, ?_, ?_, ?_, ?_, ?_, ?_⟩
    · rintro ⟨h1, h2⟩
      rw [hs, h1] at h2
      simp at h2
    · rintro ⟨h1, h2⟩
      rw [hs, h1] at h2
      simp at h2
    · intro h1 h2
      rw [hs, h1] at h2
      simp at h2
    · intro h1 h2
      rw [hs, h1] at h2
      simp at h2
    · intro h1 h2
      rw [hs] at h2
      exact absurd h2 h1
    · intro h1 h2
      rw [hs] at h2
      exact absurd h2 h1
    · intro _ f hf hnf
      exact absurd (hu hf) hnf
    · intro _ f hf hnf
      exact absurd (hd hf) hnf
  | tick =>
    rcases hs : e.state with _ | _ | _
    · refine ⟨?_, ?_, ?_, ?_, ?_, ?_, ?_, ?_⟩
      · rintro ⟨h1, _⟩
        simp at h1
      · rintro ⟨h1, _⟩
        simp at h1
      · intro h1 _
        simp at h1
      · intro h1 _
        simp at h1
      · intro _ h2
        rcases move_idle e hs with ⟨hu1, hm⟩ | ⟨hu1, hd1, hm⟩ | ⟨hu1, hd1, hm⟩ <;>
          rw [hm] at h2
        · simp at h2
        · exact ⟨rfl, hu1, hd1⟩
        · simp [hs] at h2
      · intro _ h2
        rcases move_idle e hs with ⟨hu1, hm⟩ | ⟨hu1, hd1, hm⟩ | ⟨hu1, hd1, hm⟩ <;>
          rw [hm] at h2
        · exact ⟨rfl, hu1⟩
        · simp at h2
        · simp [hs] at h2
      · intro h1
        simp at h1
      · intro h1
        simp at h1
    · refine ⟨?_, ?_, ?_, ?_, ?_, ?_, ?_, ?_⟩
      · rintro ⟨_, h2⟩
        rcases move_up_cases e hs with ⟨h3, _⟩ | ⟨h3, _⟩ <;> rw [h3] at h2 <;> simp at h2
      · rintro ⟨h1, _⟩
        simp at h1
      · intro _ h2
        rcases move_up_cases e hs with ⟨_, h4⟩ | ⟨h3, _⟩
        · exact h4
        · rw [h3] at h2
          simp at h2
      · intro h1 _
        simp at h1
      · intro _ h2
        rcases move_up_cases e hs with ⟨h3, _⟩ | ⟨h3, _⟩ <;> rw [h3] at h2 <;> simp at h2
      · intro h1 _
        exact absurd rfl h1
      · intro _
        exact move_up_serves e hs
      · intro h1
        simp at h1
    · refine ⟨?_, ?_, ?_, ?_, ?_, ?_, ?_, ?_⟩
      · rintro ⟨h1, _⟩
        simp at h1
      · rintro ⟨_, h2⟩
        rcases move_down_cases e hs with ⟨h3, _⟩ | ⟨h3, _⟩ <;> rw [h3] at h2 <;> simp at h2
      · intro h1 _
        simp at h1
      · intro _ h2
        rcases move_down_cases e hs with ⟨_, h4⟩ | ⟨h3, _⟩
        · exact h4
        · rw [h3] at h2
          simp at h2
      · intro h1 _
        exact absurd rfl h1
      · intro _ h2
        rcases move_down_cases e hs with ⟨h3, _⟩ | ⟨h3, _⟩ <;> rw [h3] at h2 <;> simp at h2
      · intro h1
        simp at h1
      · intro _
        exact move_down_serves e hs

theorem c6_witness :
    ¬((initialElevator 0).state = ElevatorState.movingUp ∧
      (move (initialElevator 0)).1.state = ElevatorState.movingDown) :=
  (c6_no_mid_reversal _ _ (Step.tick (initialElevator 0))).1

/-- C8: the hall-call facade reports no car (the "System busy" branch)
exactly when no car in the fleet is suitable, leaving every car
untouched in that case, and otherwise reports the id of the car chosen
by the selection strategy; the cabin-call facade fails (the "Invalid
elevator ID" branch) exactly when no car in the fleet carries the
requested id, and leaves the fleet unchanged in that case. -/
theorem c8_facade_error_handling (elevators : List Elevator)
    (floor destination_floor : Int) (direction : Direction) (elevator_id : Nat) :
    ((request_elevator elevators floor direction).1 = none ↔
      ∀ e ∈ elevators, is_suitable e ⟨floor, direction, RequestSource.external⟩ = false) ∧
    ((request_elevator elevators floor direction).1 = none →
      (request_elevator elevators floor direction).2 = elevators) ∧
    (∀ i, (request_elevator elevators floor direction).1 = some i →
      ∃ sel, select_elevator elevators ⟨floor, direction, RequestSource.external⟩ =
          some sel ∧ sel.id = i) ∧
    ((select_floor elevators elevator_id destination_floor).1 = none ↔
      ∀ e ∈ elevators, e.id ≠ elevator_id) ∧
    ((select_floor elevators elevator_id destination_floor).1 = none →
      (select_floor elevators elevator_id destination_floor).2 = elevators) := by
  refine ⟨?_, ?_, ?_, ?_, ?_⟩
  · rw [← select_elevator_none_iff]
    cases hsel : select_elevator elevators ⟨floor, direction, RequestSource.external⟩ with
    | none => simp [request_elevator, hsel]
    | some sel => simp [request_elevator, hsel]
  · intro h
    cases hsel : select_elevator elevators ⟨floor, direction, RequestSource.external⟩ with
    | none => simp [request_elevator, hsel]
    | some sel => simp [request_elevator, hsel] at h
  · intro i hi
    cases hsel : select_elevator elevators ⟨floor, direction, RequestSource.external⟩ with
    | none => simp [request_elevator, hsel] at hi
    | some sel =>
      simp only [request_elevator, hsel] at hi
      exact ⟨sel, rfl, Option.some.inj hi⟩
  · cases hf : elevators.find? (fun e => e.id = elevator_id) with
    | none =>
      simp only [select_floor, hf]
      constructor
      · intro _ x hx
        have h2 := List.find?_eq_none.mp hf x hx
        simpa using h2
      · intro _
        trivial
    | some x =>
      have hx := List.find?_some hf
      have hmem := List.mem_of_find?_eq_some hf
      simp only [select_floor, hf]
      constructor
      · intro hcontra
        exact absurd hcontra (by simp)
      · intro hall
        exact absurd (by simpa using hx) (hall x hmem)
  · intro h
    cases hf : elevators.find? (fun e => e.id = elevator_id) with
    | none => simp [select_floor, hf]
    | some x => simp [select_floor, hf] at h

theorem c8_witness : (request_elevator [] 5 Direction.up).1 = none :=
  ((c8_facade_error_handling [] 5 0 Direction.up 0).1).mpr (by simp)

/-- C9 counterexample: with two registered observers of which the first
raises, `notify_observers` invokes only the first — the second never
receives the update — and the exception escapes, refuting the claim that
an observer exception is caught at the notification site with delivery
continuing to the remaining observers. -/
theorem c9_counterexample :
    ¬((notify_observers [fun _ => some (), fun _ => none] (initialElevator 0)).1 = 2 ∧
      (notify_observers [fun _ => some (), fun _ => none] (initialElevator 0)).2 = none) := by
  intro hc
  have h1 : (notify_observers [fun _ => some (), fun _ => none] (initialElevator 0)).1 = 1 :=
    rfl
  omega

/-- C9 (amended): `notify_observers` has no exception handling: when the
observers before position k all succeed and observer k raises, exactly
the first k+1 observers are invoked — those after k never receive the
notification — and the exception propagates out of the notification
site, aborting the `set_state` / `set_current_floor` call (and with it
the tick or add_request) that triggered it. -/
theorem c9_exception_propagates (pre post : List (Elevator → Option Unit))
    (o : Elevator → Option Unit) (e : Elevator)
    (hpre : ∀ p ∈ pre, p e = none) (ho : o e ≠ none) :
    (notify_observers (pre ++ o :: post) e).1 = pre.length + 1 ∧
    (notify_observers (pre ++ o :: post) e).2 = o e := by
  induction pre with
  | nil =>
    cases hoe : o e with
    | none => exact absurd hoe ho
    | some exc => simp [notify_observers, hoe]
  | cons p pre ih =>
    have hp : p e = none := hpre p (List.mem_cons_self p pre)
    have ih2 := ih (fun q hq => hpre q (List.mem_cons_of_mem p hq))
    simp only [List.cons_append, notify_observers, hp]
    constructor
    · have h3 := ih2.1
      simp only [List.append_eq]
      rw [h3]
      simp
    · have h3 := ih2.2
      simp only [List.append_eq]
      exact h3

theorem c9_witness :
    (notify_observers [fun _ => none, fun _ => some (), fun _ => none]
        (initialElevator 0)).1 = 2 ∧
    (notify_observers [fun _ => none, fun _ => some (), fun _ => none]
        (initialElevator 0)).2 = some () := by
  have h := c9_exception_propagates [fun _ => none] [fun _ => none]
    (fun _ => some ()) (initialElevator 0)
    (by
      intro p hp
      simp only [List.mem_singleton] at hp
      subst hp
      rfl)
    (by simp)
  simpa using h

end ElevatorLLD
